import Mathlib

set_option maxRecDepth 4000

/-!
Verification of the gourcers repository's rule engine and pipeline against its
specification.  The Rust sources are shallowly embedded: pure functions become
Lean functions, subprocess interactions become explicit environment records of
`Except`-valued outcomes, and machine-level details that the claims do not
touch are kept abstract as parameters.
-/

namespace Gourcers

/-- Rust `bool::to_string`, as used by `Entry::matches`. -/
def boolString (b : Bool) : String := if b then "true" else "false"

/-- Unicode White_Space property, the character class removed by Rust
`str::trim`. -/
def isRustWs (c : Char) : Bool :=
  let n := c.toNat
  n = 0x9 || n = 0xA || n = 0xB || n = 0xC || n = 0xD || n = 0x20 ||
  n = 0x85 || n = 0xA0 || n = 0x1680 || (0x2000 ≤ n && n ≤ 0x200A) ||
  n = 0x2028 || n = 0x2029 || n = 0x202F || n = 0x205F || n = 0x3000

/-- Rust `str::trim_start` on a character list. -/
def ltrimChars (l : List Char) : List Char := l.dropWhile isRustWs

/-- Rust `str::trim_end` on a character list. -/
def rtrimChars (l : List Char) : List Char :=
  (l.reverse.dropWhile isRustWs).reverse

/-- Rust `str::trim` on a character list: drop whitespace from both ends. -/
def trimChars (l : List Char) : List Char := rtrimChars (ltrimChars l)

/-- Rust `str::trim`. -/
def rustTrim (s : String) : String := ⟨trimChars s.data⟩

/-- Strip one trailing carriage return, as Rust `str::lines` does per line. -/
def stripCR (l : List Char) : List Char :=
  match l.reverse with
  | '\r' :: rest => rest.reverse
  | _ => l

/-- Split a character list at every occurrence of a separator; the piece list
is always nonempty and keeps empty pieces. -/
def splitOnChar (sep : Char) : List Char → List (List Char)
  | [] => [[]]
  | c :: rest =>
    if c = sep then [] :: splitOnChar sep rest
    else
      match splitOnChar sep rest with
      | [] => [[c]]
      | l :: ls => (c :: l) :: ls

/-- Split a character list at every newline. -/
def splitOnNl (l : List Char) : List (List Char) := splitOnChar '\n' l

/-- Join pieces back with newlines. -/
def joinNl (ls : List (List Char)) : List Char := List.intercalate ['\n'] ls

/-- Rust `str::lines`: split on newline, drop the optional final empty piece,
strip one trailing carriage return from each line. -/
def rustLines (s : String) : List String :=
  let parts := splitOnNl s.data
  let parts := if parts.getLast? = some [] then parts.dropLast else parts
  parts.map fun p => ⟨stripCR p⟩

/-- Rust `str::splitn(2, ':')`: the piece before the first colon and, when a
colon is present, everything after it (later colons stay in the value). -/
def splitFirstColon : List Char → List Char × Option (List Char)
  | [] => ([], none)
  | c :: rest =>
    if c = ':' then ([], some rest)
    else (c :: (splitFirstColon rest).1, (splitFirstColon rest).2)

namespace Github

/-- src/github.rs `Owner`. -/
structure Owner where
  login : String
deriving DecidableEq, Repr

/-- src/github.rs `Repo`.  The Rust field `private` is a Lean keyword and is
rendered `private_`. -/
structure Repo where
  name : String
  full_name : Option String
  ssh_url : String
  owner : Owner
  fork : Bool
  private_ : Bool
deriving DecidableEq, Repr

/-- src/github.rs `Repo::full_name()`: the `full_name` field, or
`owner/name` when the field is absent. -/
def Repo.fullName (r : Repo) : String :=
  match r.full_name with
  | some s => s
  | none => r.owner.login ++ "/" ++ r.name

end Github

namespace Include

/-- src/include.rs `ErrorKind`. -/
inductive ErrorKind where
  | InvalidSelector : Option String → ErrorKind
  | InvalidBool : String → ErrorKind
  | MissingValue : String → ErrorKind
deriving DecidableEq, Repr

/-- src/include.rs `Error`: a kind plus the reported line number. -/
structure Error where
  kind : ErrorKind
  line : Nat
deriving DecidableEq, Repr

/-- src/include.rs `Selector`. -/
inductive Selector where
  | All | Owner | Name | FullName | IsFork | Public
deriving DecidableEq, Repr

/-- src/include.rs `Entry`. -/
structure Entry where
  selector : Selector
  value : String
deriving DecidableEq, Repr

/-- src/include.rs `Entry::matches`. -/
def Entry.matches (e : Entry) (r : Github.Repo) : Bool :=
  match e.selector with
  | .All => true
  | .Owner => r.owner.login = e.value
  | .Name => r.name = e.value
  | .FullName => r.fullName = e.value
  | .IsFork => boolString r.fork = e.value
  | .Public => boolString (!r.private_) = e.value

/-- src/include.rs `RuleSet`. -/
structure RuleSet where
  includes : List Entry
  excludes : List Entry
deriving DecidableEq, Repr

/-- src/include.rs `RuleSet::new`. -/
def RuleSet.new : RuleSet := ⟨[], []⟩

/-- src/include.rs `RuleSet::merge`, as a pure function: `a` mutated in place
by extending each list with `b`'s entries. -/
def RuleSet.merge (a b : RuleSet) : RuleSet :=
  ⟨a.includes ++ b.includes, a.excludes ++ b.excludes⟩

/-- src/include.rs `IncludeResult`, carrying the matched entries.
`include` is a Lean keyword, so that constructor is rendered `include'`. -/
inductive IncludeResult where
  | include' : Entry → IncludeResult
  | exclude : Entry → Entry → IncludeResult
  | default : IncludeResult
deriving DecidableEq, Repr

/-- src/include.rs `IncludeResult::keep`. -/
def IncludeResult.keep : IncludeResult → Bool
  | .include' _ => true
  | _ => false

/-- src/include.rs `RuleSet::test`: first matching include, then first
matching exclude. -/
def RuleSet.test (rs : RuleSet) (r : Github.Repo) : IncludeResult :=
  match rs.includes.find? (fun e => e.matches r) with
  | none => .default
  | some inclusion =>
    match rs.excludes.find? (fun e => e.matches r) with
    | none => .include' inclusion
    | some exclusion => .exclude inclusion exclusion

/-- src/include.rs `RuleSet::apply`: retain only repositories whose verdict
keeps them (the debug logging has no effect on the result). -/
def RuleSet.apply (rs : RuleSet) (repos : List Github.Repo) : List Github.Repo :=
  repos.filter fun r => (rs.test r).keep

/-- src/main.rs lines 267-269: the rule set is applied only when present; an
absent rule set leaves the catalog unfiltered. -/
def applyIncludes (includes : Option RuleSet) (repos : List Github.Repo) :
    List Github.Repo :=
  match includes with
  | some rs => rs.apply repos
  | none => repos

/-- The selector-token match of src/include.rs `Entry::from_str`. -/
def selectorOfString : String → Option Selector
  | "*" => some .All
  | "owner" => some .Owner
  | "name" => some .Name
  | "full_name" => some .FullName
  | "is_fork" => some .IsFork
  | "public" => some .Public
  | _ => none

/-- The two selectors whose value must be a bool literal. -/
def isBoolSelector : Selector → Bool
  | .IsFork => true
  | .Public => true
  | _ => false

/-- src/include.rs `Entry::from_str` on a character list: split at the first
colon, match the selector token, require a nonempty value, bool-check the
`is_fork`/`public` values. -/
def entryFromChars (l : List Char) : Except ErrorKind Entry :=
  match selectorOfString ⟨(splitFirstColon l).1⟩ with
  | none => .error (.InvalidSelector (some (⟨(splitFirstColon l).1⟩ : String)))
  | some selector =>
    match (splitFirstColon l).2 with
    | some v =>
      if v = [] then .error (.MissingValue ⟨l⟩)
      else
        if isBoolSelector selector = true ∧ (⟨v⟩ : String) ≠ "true" ∧
            (⟨v⟩ : String) ≠ "false" then
          .error (.InvalidBool ⟨v⟩)
        else .ok ⟨selector, ⟨v⟩⟩
    | none => .error (.MissingValue ⟨l⟩)

/-- src/include.rs `Entry::from_str`. -/
def Entry.from_str (s : String) : Except ErrorKind Entry :=
  entryFromChars s.data

/-- Outcome of one loop iteration of `RuleSet::from_str`: the line is skipped,
or yields an entry with its exclude flag. -/
inductive LineOut where
  | skip : LineOut
  | entry : Bool → Entry → LineOut
deriving DecidableEq, Repr

/-- One loop iteration of src/include.rs `RuleSet::from_str` (lines 71-89):
trim the line, skip comments and blanks, strip a leading `!` as the exclude
marker, then parse the entry. -/
def lineStepChars (l : List Char) : Except ErrorKind LineOut :=
  match trimChars l with
  | [] => .ok .skip
  | c :: rest =>
    if c = '#' then .ok .skip
    else if c = '!' then (entryFromChars rest).map (.entry true)
    else (entryFromChars (c :: rest)).map (.entry false)

/-- Push a parsed entry onto the include or exclude list. -/
def RuleSet.pushEntry (rs : RuleSet) (exclude : Bool) (e : Entry) : RuleSet :=
  if exclude then { rs with excludes := rs.excludes ++ [e] }
  else { rs with includes := rs.includes ++ [e] }

/-- The enumerated-lines loop of src/include.rs `RuleSet::from_str`: `i` is
the 0-based index of the next line; an error is attributed to `i + 1`
(`let line_number = x + 1`). -/
def fromLinesAux (acc : RuleSet) (i : Nat) : List String → Except Error RuleSet
  | [] => .ok acc
  | ln :: rest =>
    match lineStepChars ln.data with
    | .error k => .error ⟨k, i + 1⟩
    | .ok .skip => fromLinesAux acc (i + 1) rest
    | .ok (.entry b e) => fromLinesAux (acc.pushEntry b e) (i + 1) rest

/-- src/include.rs `RuleSet::from_str`. -/
def RuleSet.from_str (s : String) : Except Error RuleSet :=
  fromLinesAux RuleSet.new 0 (rustLines s)

end Include

namespace Ignore

/-- src/ignore.rs `IgnoreFileErrorKind`. -/
inductive IgnoreFileErrorKind where
  | InvalidSelector : Option String → IgnoreFileErrorKind
  | InvalidBool : String → IgnoreFileErrorKind
  | MissingValue : String → IgnoreFileErrorKind
deriving DecidableEq, Repr

/-- src/ignore.rs `IgnoreFileError`: a kind plus the reported line number. -/
structure IgnoreFileError where
  kind : IgnoreFileErrorKind
  line : Nat
deriving DecidableEq, Repr

/-- src/ignore.rs `IgnoreSelector` (no `public` selector here). -/
inductive IgnoreSelector where
  | All | Owner | Name | FullName | IsFork
deriving DecidableEq, Repr

/-- src/ignore.rs `IgnoreEntry`. -/
structure IgnoreEntry where
  selector : IgnoreSelector
  value : String
deriving DecidableEq, Repr

/-- src/ignore.rs `IgnoreFile`. -/
structure IgnoreFile where
  entries : List IgnoreEntry
  inverted_entries : List IgnoreEntry
deriving DecidableEq, Repr

/-- src/ignore.rs `IgnoreFile::new`. -/
def IgnoreFile.new : IgnoreFile := ⟨[], []⟩

/-- The selector-token match of src/ignore.rs `IgnoreFile::from_str`. -/
def ignoreSelectorOfString : String → Option IgnoreSelector
  | "*" => some .All
  | "owner" => some .Owner
  | "name" => some .Name
  | "full_name" => some .FullName
  | "is_fork" => some .IsFork
  | _ => none

/-- Outcome of one loop iteration of `IgnoreFile::from_str`. -/
inductive IgnoreLineOut where
  | skip : IgnoreLineOut
  | entry : Bool → IgnoreEntry → IgnoreLineOut
deriving DecidableEq, Repr

/-- One loop iteration of src/ignore.rs `IgnoreFile::from_str` (lines 67-116):
trim, skip comments and blanks, split at the first colon, detect a leading `!`
on the selector part; any value after the colon (even the empty one) is
accepted; only `is_fork` values are bool-checked. -/
def ignoreLineStep (l : List Char) : Except IgnoreFileErrorKind IgnoreLineOut :=
  match trimChars l with
  | [] => .ok .skip
  | c :: rest =>
    if c = '#' then .ok .skip
    else
      let line := c :: rest
      let inverted : Bool := (splitFirstColon line).1.head? == some '!'
      let selPart :=
        if inverted then (splitFirstColon line).1.tail else (splitFirstColon line).1
      match ignoreSelectorOfString ⟨selPart⟩ with
      | none => .error (.InvalidSelector (some (⟨selPart⟩ : String)))
      | some selector =>
        match (splitFirstColon line).2 with
        | none => .error (.MissingValue ⟨line⟩)
        | some v =>
          if selector = .IsFork ∧ (⟨v⟩ : String) ≠ "true" ∧
              (⟨v⟩ : String) ≠ "false" then
            .error (.InvalidBool ⟨v⟩)
          else .ok (.entry inverted ⟨selector, ⟨v⟩⟩)

/-- Push a parsed entry onto the plain or inverted list. -/
def IgnoreFile.pushEntry (f : IgnoreFile) (inverted : Bool) (e : IgnoreEntry) :
    IgnoreFile :=
  if inverted then { f with inverted_entries := f.inverted_entries ++ [e] }
  else { f with entries := f.entries ++ [e] }

/-- The enumerated-lines loop of src/ignore.rs `IgnoreFile::from_str`: note
the error is built from the 0-based `enumerate` index `x` directly
(`Err((x, ...))`), not from `x + 1`. -/
def ignoreLinesAux (acc : IgnoreFile) (i : Nat) :
    List String → Except IgnoreFileError IgnoreFile
  | [] => .ok acc
  | ln :: rest =>
    match ignoreLineStep ln.data with
    | .error k => .error ⟨k, i⟩
    | .ok .skip => ignoreLinesAux acc (i + 1) rest
    | .ok (.entry b e) => ignoreLinesAux (acc.pushEntry b e) (i + 1) rest

/-- src/ignore.rs `IgnoreFile::from_str`. -/
def IgnoreFile.from_str (s : String) : Except IgnoreFileError IgnoreFile :=
  ignoreLinesAux IgnoreFile.new 0 (rustLines s)

end Ignore

/-- The six selector tokens recognized by src/include.rs. -/
def selectorStrings : List String :=
  ["*", "owner", "name", "full_name", "is_fork", "public"]

/-- The five selector tokens recognized by src/ignore.rs. -/
def ignoreSelectorStrings : List String :=
  ["*", "owner", "name", "full_name", "is_fork"]

/-- The src/ignore.rs selector tokens whose value is not bool-checked. -/
def ignorePlainSelectorStrings : List String :=
  ["*", "owner", "name", "full_name"]

/-- The message shape of anyhow/eyre `context`/`wrap_err`: the context text
followed by the underlying cause. -/
def contextMsg (ctx msg : String) : String := ctx ++ ": " ++ msg

namespace Gh

/-- src/gh.rs `Owner`. -/
structure Owner where
  login : String
deriving DecidableEq, Repr

/-- src/gh.rs `Repo` (this module's repo type has no `private` field). -/
structure Repo where
  name : String
  full_name : Option String
  ssh_url : String
  owner : Owner
  fork : Bool
deriving DecidableEq, Repr

end Gh

namespace Gource

/-- The characters removed by `DEQUOTE_REGEX` (single quote, double quote,
backtick, Unicode 96). -/
def isQuoteChar (c : Char) : Bool :=
  c = '\'' || c = '"' || c = Char.ofNat 96

/-- `DEQUOTE_REGEX.replace_all(.., "")`: delete every quote character. -/
def removeQuotes (l : List Char) : List Char :=
  l.filter fun c => !(isQuoteChar c)

/-- `diacritics::remove_diacritics` is an external crate; it maps each
character independently, so it is modelled as a parameter `dia` giving each
character's expansion.  A character carries no diacritical mark exactly when
`dia` maps it to itself. -/
def applyDia (dia : Char → List Char) (l : List Char) : List Char :=
  (l.map dia).flatten

/-- Match-end test for `REPLACE_REGEX` = `(.*\|.{1}\|)(.*)`: position `j` can
end capture 1 when the characters at `j-1` and `j-3` are pipes (with any
single character between them). -/
def spliceAt (l : List Char) (j : Nat) : Bool :=
  decide (3 ≤ j) && (l[j - 1]? == some '|') && (l[j - 3]? == some '|')

/-- The greedy end of capture 1: `.*` is greedy, so the regex engine picks
the rightmost `|<char>|` in the line; descend from the line length. -/
def lastSpliceIdxAux (l : List Char) : Nat → Option Nat
  | 0 => none
  | j + 1 => if spliceAt l (j + 1) then some (j + 1) else lastSpliceIdxAux l j

/-- The end of capture 1 of `REPLACE_REGEX` on a line, if the line matches. -/
def lastSpliceIdx (l : List Char) : Option Nat := lastSpliceIdxAux l l.length

/-- One line of `REPLACE_REGEX.replace_all` with substitution `$1/{name}$2`
(src/gource.rs lines 41-43): when the pattern matches, rewrite the line as
capture 1, a slash, the repository name, then the remainder; otherwise leave
the line unchanged. -/
def spliceLine (name : String) (l : List Char) : List Char :=
  match lastSpliceIdx l with
  | none => l
  | some j => l.take j ++ '/' :: name.data ++ l.drop j

/-- `REPLACE_REGEX.replace_all` over the whole log text: `.` does not match
newlines, so the substitution acts line by line. -/
def spliceLog (name : String) (log : List Char) : List Char :=
  joinNl ((splitOnNl log).map (spliceLine name))

/-- The normalization applied by src/gource.rs `generate_gource_log` to the
raw renderer log (lines 41-47): splice the repo `name` into each line, strip
diacritics, strip quotes. -/
def normalizeLog (dia : Char → List Char) (repo : Gh.Repo) (log : List Char) :
    List Char :=
  removeQuotes (applyDia dia (spliceLog repo.name log))

/-- The same normalization viewed on a single (newline-free) line. -/
def normalizeLine (dia : Char → List Char) (repo : Gh.Repo) (line : List Char) :
    List Char :=
  removeQuotes (applyDia dia (spliceLine repo.name line))

/-- `str::splitn`-style split of a line at the first pipe (used only to state
the claim's reading of the transform). -/
def splitFirstPipe : List Char → List Char × Option (List Char)
  | [] => ([], none)
  | c :: rest =>
    if c = '|' then ([], some rest)
    else (c :: (splitFirstPipe rest).1, (splitFirstPipe rest).2)

/-- The spec data-model identity: `full_name = owner/name`. -/
def specFullName (repo : Gh.Repo) : String :=
  repo.owner.login ++ "/" ++ repo.name

/-- Claim C6's reading of normalization, stated from the claim's words for
comparison: the line is unchanged except that the repository identity
(`full_name`) is spliced as a new path segment after the second
pipe-delimited field. -/
def claimedNormalizeLine (repo : Gh.Repo) (line : List Char) : List Char :=
  match (splitFirstPipe line).2 with
  | none => line
  | some r1 =>
    match (splitFirstPipe r1).2 with
    | none => line
    | some b =>
      (splitFirstPipe line).1 ++ '|' :: (splitFirstPipe r1).1 ++
        '|' :: '/' :: (specFullName repo).data ++ b

/-- Outcomes of the external interactions of the video branch of
src/gource.rs `execute_gource` (lines 68-168), in program order: spawning the
two processes, the stdout-to-stdin copy, the two waits (returning the exit
status success flag), and the two stderr reads.  Each is an `Except` to model
the I/O errors that `context` wraps. -/
structure VideoEnv where
  ffmpegSpawn : Except String Unit
  gourceSpawn : Except String Unit
  copyOut : Except String Unit
  gourceWait : Except String Bool
  gourceStderrRead : Except String String
  ffmpegWait : Except String Bool
  ffmpegStderrRead : Except String String
deriving Repr

/-- Result of the video branch, plus whether the encoder's exit status was
ever awaited. -/
structure VideoOutcome where
  result : Except String Unit
  waitedFfmpeg : Bool
deriving Repr

/-- src/gource.rs `execute_gource`, video branch: spawn ffmpeg, spawn gource,
copy gource stdout into ffmpeg stdin, wait for gource; on nonzero exit read
gource stderr and fail before waiting on ffmpeg; otherwise wait for ffmpeg
and fail with its stderr on nonzero exit. -/
def executeGourceVideo (env : VideoEnv) : VideoOutcome :=
  match env.ffmpegSpawn with
  | .error e => ⟨.error (contextMsg "failed to execute ffmpeg command" e), false⟩
  | .ok _ =>
    match env.gourceSpawn with
    | .error e => ⟨.error (contextMsg "failed to execute gource command" e), false⟩
    | .ok _ =>
      match env.copyOut with
      | .error e =>
        ⟨.error (contextMsg "failed to copy gource output to ffmpeg input" e), false⟩
      | .ok _ =>
        match env.gourceWait with
        | .error e => ⟨.error (contextMsg "failed to wait for gource to finish" e), false⟩
        | .ok gsucc =>
          if !gsucc then
            match env.gourceStderrRead with
            | .error e => ⟨.error (contextMsg "failed to read gource stderr" e), false⟩
            | .ok stderr => ⟨.error ("Failed to generate video: " ++ stderr), false⟩
          else
            match env.ffmpegWait with
            | .error e => ⟨.error (contextMsg "failed to wait for ffmpeg to finish" e), true⟩
            | .ok fsucc =>
              if !fsucc then
                match env.ffmpegStderrRead with
                | .error e => ⟨.error (contextMsg "failed to read ffmpeg stderr" e), true⟩
                | .ok stderr => ⟨.error ("Failed to generate video: " ++ stderr), true⟩
              else ⟨.ok (), true⟩

/-- src/gource.rs `execute_gource`, non-video branch (lines 169-181): the
renderer's exit status is awaited but discarded (`let _ = cmd.status()`);
only an I/O failure to run and await the command is an error. -/
def executeGourceRenderOnly (statusResult : Except String Bool) :
    Except String Unit :=
  match statusResult with
  | .error e => .error (contextMsg "failed to execute gource command" e)
  | .ok _ => .ok ()

end Gource

namespace Qsv

/-- Environment of src/qsv.rs `combine_and_sort_logs`: reading one
repository's log file, and the external qsv sort/fmt pipeline abstracted as
its outcome on the combined input. -/
structure MergeEnv where
  readLog : Gh.Repo → Except String String
  qsvPipeline : String → Except String Unit

/-- The read-and-concatenate loop of src/qsv.rs (lines 25-30): catalog order,
first unreadable log aborts. -/
def combineLogs (readLog : Gh.Repo → Except String String) :
    List Gh.Repo → Except String String
  | [] => .ok ""
  | r :: rest =>
    match readLog r with
    | .error e => .error (contextMsg "failed to read gource log file" e)
    | .ok s =>
      match combineLogs readLog rest with
      | .error e => .error e
      | .ok t => .ok (s ++ t)

/-- src/qsv.rs `combine_and_sort_logs`: concatenate every log in catalog
order, then feed the combined text to the qsv pipeline. -/
def combine_and_sort_logs (env : MergeEnv) (repos : List Gh.Repo) :
    Except String Unit :=
  match combineLogs env.readLog repos with
  | .error e => .error e
  | .ok combined => env.qsvPipeline combined

end Qsv

namespace MainMod

/-- Environment of the src/main.rs pipeline after the catalog fetch: the
per-repository effects and the two global stages. -/
structure MainEnv where
  fetchRepo : Github.Repo → Except String Unit
  generateGourceLog : Github.Repo → Except String Unit
  combineAndSortLogs : List Github.Repo → Except String Unit
  generateGourceVideo : Except String Unit

/-- The clone/pull loop of src/main.rs (lines 289-294): repositories are
fetched in order and `?` propagates the first failure, wrapped with the
failing repository's full name.  The second component records which
repositories were attempted. -/
def cloneAllTrace (fetch : Github.Repo → Except String Unit) :
    List Github.Repo → Except String Unit × List Github.Repo
  | [] => (.ok (), [])
  | r :: rest =>
    match fetch r with
    | .error e =>
      (.error (contextMsg ("failed to fetch repo " ++ r.fullName) e), [r])
    | .ok _ =>
      ((cloneAllTrace fetch rest).1, r :: (cloneAllTrace fetch rest).2)

/-- The gource-log loop of src/main.rs (lines 314-318), with the same
first-failure propagation. -/
def genLogsTrace (gen : Github.Repo → Except String Unit) :
    List Github.Repo → Except String Unit × List Github.Repo
  | [] => (.ok (), [])
  | r :: rest =>
    match gen r with
    | .error e =>
      (.error (contextMsg ("failed to generate gource log for " ++ r.fullName) e), [r])
    | .ok _ =>
      ((genLogsTrace gen rest).1, r :: (genLogsTrace gen rest).2)

/-- Stages 1-5 of src/main.rs `main` after the catalog fetch (lines 267-336):
filter by the optional rule set, clone every repository (unless skipped),
generate every log, combine and sort, render the video; each stage runs only
if every earlier one succeeded. -/
def runPipeline (env : MainEnv) (includes : Option Include.RuleSet)
    (skipClone : Bool) (repos0 : List Github.Repo) : Except String Unit :=
  let repos := Include.applyIncludes includes repos0
  match (if skipClone then .ok () else (cloneAllTrace env.fetchRepo repos).1) with
  | .error e => .error e
  | .ok _ =>
    match (genLogsTrace env.generateGourceLog repos).1 with
    | .error e => .error e
    | .ok _ =>
      match env.combineAndSortLogs repos with
      | .error e => .error (contextMsg "failed to combine and sort logs" e)
      | .ok _ =>
        match env.generateGourceVideo with
        | .error e => .error (contextMsg "failed to generate gource video" e)
        | .ok _ => .ok ()

end MainMod

/-- A concrete repository used to instantiate theorems: public non-fork owned
by `foo`. -/
def repoFoo : Github.Repo :=
  { name := "r1", full_name := none, ssh_url := "git@x:foo/r1",
    owner := ⟨"foo"⟩, fork := false, private_ := false }

/-- A concrete rule set with one include (`*:*`) and one exclude
(`!owner:foo`). -/
def rsW : Include.RuleSet :=
  ⟨[⟨.All, "*"⟩], [⟨.Owner, "foo"⟩]⟩

/-- A concrete rule set with one include (`owner:foo`) and an exclude that
matches nothing in our examples (`!name:zzz`). -/
def rsW2 : Include.RuleSet :=
  ⟨[⟨.Owner, "foo"⟩], [⟨.Name, "zzz"⟩]⟩

/-- A concrete repository owned by `bar`. -/
def repoBar : Github.Repo :=
  { name := "r2", full_name := none, ssh_url := "git@x:bar/r2",
    owner := ⟨"bar"⟩, fork := false, private_ := false }

/-- A concrete src/gh.rs repository with owner `o` and name `n`. -/
def repoG1 : Gh.Repo :=
  { name := "n", full_name := some "o/n", ssh_url := "git@x:o/n",
    owner := ⟨"o"⟩, fork := false }

/-- A second concrete src/gh.rs repository. -/
def repoG2 : Gh.Repo :=
  { name := "m", full_name := some "o/m", ssh_url := "git@x:o/m",
    owner := ⟨"o"⟩, fork := false }

/-- The identity diacritics map: a text all of whose characters are mapped to
themselves carries no diacritical marks. -/
def diaId : Char → List Char := fun c => [c]

/-- A concrete video environment in which the renderer exits nonzero with
stderr `boom` after a successful copy. -/
def videoEnvW : Gource.VideoEnv :=
  { ffmpegSpawn := .ok (), gourceSpawn := .ok (), copyOut := .ok (),
    gourceWait := .ok false, gourceStderrRead := .ok "boom",
    ffmpegWait := .ok true, ffmpegStderrRead := .ok "" }

/-- A concrete merge environment in which both repository logs read
successfully. -/
def mergeEnvW : Qsv.MergeEnv :=
  { readLog := fun r => if r = repoG1 then .ok "1|A|x\n" else .ok "2|M|y\n",
    qsvPipeline := fun _ => .ok () }

/-- A concrete merge environment in which the second repository's log is
unreadable. -/
def mergeEnvFailW : Qsv.MergeEnv :=
  { readLog := fun r => if r = repoG2 then .error "missing" else .ok "1|A|x\n",
    qsvPipeline := fun _ => .ok () }

/-- A concrete main-pipeline environment in which fetching `repoFoo` fails
and everything else succeeds. -/
def mainEnvFail : MainMod.MainEnv :=
  { fetchRepo := fun r => if r = repoFoo then .error "boom" else .ok (),
    generateGourceLog := fun _ => .ok (),
    combineAndSortLogs := fun _ => .ok (),
    generateGourceVideo := .ok () }

/-- A concrete main-pipeline environment in which every fetch succeeds but
log generation for `repoBar` fails. -/
def mainEnvLogFail : MainMod.MainEnv :=
  { fetchRepo := fun _ => .ok (),
    generateGourceLog := fun r => if r = repoBar then .error "nolog" else .ok (),
    combineAndSortLogs := fun _ => .ok (),
    generateGourceVideo := .ok () }

end Gourcers

namespace Gourcers

/-! Theorems. -/

/-- The head of a `dropWhile` result fails the predicate. -/
theorem dropWhile_head?_false {α : Type} {p : α → Bool} :
    ∀ (l : List α) (c : α), (l.dropWhile p).head? = some c → p c = false
  | [], c, h => by simp at h
  | a :: t, c, h => by
    rw [List.dropWhile_cons] at h
    by_cases ha : p a = true
    · rw [if_pos ha] at h
      exact dropWhile_head?_false t c h
    · rw [if_neg ha] at h
      simp only [List.head?_cons, Option.some.injEq] at h
      subst h
      exact Bool.not_eq_true _ |>.mp ha

/-- `dropWhile` jumps over a block of elements satisfying the predicate. -/
theorem dropWhile_append_all {α : Type} (p : α → Bool) (w l : List α)
    (hw : ∀ c ∈ w, p c = true) : (w ++ l).dropWhile p = l.dropWhile p := by
  induction w with
  | nil => rfl
  | cons a t ih =>
    rw [List.cons_append, List.dropWhile_cons, if_pos (hw a (by simp))]
    exact ih fun c hc => hw c (by simp [hc])

/-- `dropWhile` keeps a final element that fails the predicate. -/
theorem dropWhile_append_last {α : Type} (p : α → Bool) (m : List α) (a : α)
    (ha : p a = false) : (m ++ [a]).dropWhile p = m.dropWhile p ++ [a] := by
  induction m with
  | nil => simp [List.dropWhile_cons, ha]
  | cons b t ih =>
    rw [List.cons_append, List.dropWhile_cons, List.dropWhile_cons]
    by_cases hb : p b = true
    · rw [if_pos hb, if_pos hb, ih]
    · rw [if_neg hb, if_neg hb, List.cons_append]

/-- Right trimming passes over a leading non-whitespace character. -/
theorem rtrimChars_cons (a : Char) (l : List Char) (ha : isRustWs a = false) :
    rtrimChars (a :: l) = a :: rtrimChars l := by
  unfold rtrimChars
  rw [List.reverse_cons, dropWhile_append_last _ _ _ ha, List.reverse_append]
  rfl

/-- The last character of a right-trimmed list is not whitespace. -/
theorem rtrimChars_getLast?_false (l : List Char) (c : Char)
    (h : (rtrimChars l).getLast? = some c) : isRustWs c = false := by
  unfold rtrimChars at h
  rw [List.getLast?_reverse] at h
  exact dropWhile_head?_false _ _ h

/-- The last character of a trimmed list is not whitespace. -/
theorem trimChars_getLast?_false (l : List Char) (c : Char)
    (h : (trimChars l).getLast? = some c) : isRustWs c = false :=
  rtrimChars_getLast?_false _ _ h

/-- Right trimming removes exactly a trailing whitespace block. -/
theorem rtrimChars_append_all (core w2 : List Char)
    (h2 : ∀ c ∈ w2, isRustWs c = true)
    (hl : ∀ c, core.getLast? = some c → isRustWs c = false) :
    rtrimChars (core ++ w2) = core := by
  unfold rtrimChars
  rw [List.reverse_append,
    dropWhile_append_all _ w2.reverse core.reverse
      fun c hc => h2 c (List.mem_reverse.mp hc)]
  cases hc : core.reverse with
  | nil =>
    have hcore : core = [] := by simpa using congrArg List.reverse hc
    simp [hcore]
  | cons d t =>
    have hd : core.getLast? = some d := by
      rw [← List.head?_reverse, hc]
      rfl
    rw [List.dropWhile_cons, if_neg (by simp [hl d hd]), ← hc,
      List.reverse_reverse]

/-- Trimming removes exactly the surrounding whitespace blocks. -/
theorem trimChars_append_both (w1 core w2 : List Char)
    (h1 : ∀ c ∈ w1, isRustWs c = true) (h2 : ∀ c ∈ w2, isRustWs c = true)
    (hh : ∀ c, core.head? = some c → isRustWs c = false)
    (hl : ∀ c, core.getLast? = some c → isRustWs c = false) :
    trimChars (w1 ++ core ++ w2) = core := by
  unfold trimChars ltrimChars
  rw [List.append_assoc, dropWhile_append_all _ _ _ h1]
  cases core with
  | nil =>
    rw [List.nil_append, List.dropWhile_eq_nil_iff.mpr h2]
    rfl
  | cons c rest =>
    rw [List.cons_append, List.dropWhile_cons,
      if_neg (by simp [hh c rfl]), ← List.cons_append]
    exact rtrimChars_append_all _ _ h2 hl

/-- `splitFirstColon` is a decomposition of its input. -/
theorem splitFirstColon_eq :
    ∀ (l a v : List Char), splitFirstColon l = (a, some v) → l = a ++ ':' :: v
  | [], a, v, h => by simp [splitFirstColon] at h
  | c :: rest, a, v, h => by
    unfold splitFirstColon at h
    by_cases hc : c = ':'
    · rw [if_pos hc] at h
      simp only [Prod.mk.injEq, Option.some.injEq] at h
      obtain ⟨h1, h2⟩ := h
      subst h1
      subst h2
      simp [hc]
    · rw [if_neg hc] at h
      simp only [Prod.mk.injEq] at h
      obtain ⟨h1, h2⟩ := h
      cases hv' : (splitFirstColon rest).2 with
      | none =>
        rw [hv'] at h2
        exact absurd h2 (by simp)
      | some v'' =>
        rw [hv'] at h2
        have hfull : splitFirstColon rest = ((splitFirstColon rest).1, some v'') := by
          rw [← hv']
        have hrest := splitFirstColon_eq rest (splitFirstColon rest).1 v'' hfull
        subst h1
        have hv : v'' = v := by simpa using h2
        subst hv
        conv_lhs => rw [hrest]
        rfl

/-- `getLast?` skips a cons when the tail is nonempty. -/
theorem getLast?_cons_ne {α : Type} (a : α) (l : List α) (h : l ≠ []) :
    (a :: l).getLast? = l.getLast? := by
  cases l with
  | nil => exact absurd rfl h
  | cons b t => exact List.getLast?_cons_cons ..

/-- `getLast?` of an append with nonempty right part. -/
theorem getLast?_append_ne {α : Type} (l₁ l₂ : List α) (h : l₂ ≠ []) :
    (l₁ ++ l₂).getLast? = l₂.getLast? := by
  induction l₁ with
  | nil => rfl
  | cons a t ih =>
    rw [List.cons_append, getLast?_cons_ne a (t ++ l₂)
      (fun hx => h (List.append_eq_nil.mp hx).2)]
    exact ih

/-- The keep decision of `RuleSet::test` is existence of a matching include
and absence of a matching exclude. -/
theorem keep_test_eq (rs : Include.RuleSet) (r : Github.Repo) :
    (rs.test r).keep =
      (rs.includes.any (fun e => e.matches r) &&
        !(rs.excludes.any (fun e => e.matches r))) := by
  unfold Include.RuleSet.test
  cases h1 : rs.includes.find? (fun e => e.matches r) with
  | none =>
    have : rs.includes.any (fun e => e.matches r) = false := by
      rw [List.any_eq_false]
      intro x hx
      simpa using List.find?_eq_none.mp h1 x hx
    simp [this, Include.IncludeResult.keep]
  | some i =>
    have hip := List.find?_some h1
    have h1' : rs.includes.any (fun e => e.matches r) = true := by
      rw [List.any_eq_true]
      exact ⟨i, List.mem_of_find?_eq_some h1, hip⟩
    cases h2 : rs.excludes.find? (fun e => e.matches r) with
    | none =>
      have : rs.excludes.any (fun e => e.matches r) = false := by
        rw [List.any_eq_false]
        intro x hx
        simpa using List.find?_eq_none.mp h2 x hx
      simp [this, h1', Include.IncludeResult.keep]
    | some x =>
      have hxp := List.find?_some h2
      have h2' : rs.excludes.any (fun e => e.matches r) = true := by
        rw [List.any_eq_true]
        exact ⟨x, List.mem_of_find?_eq_some h2, hxp⟩
      simp [h1', h2', Include.IncludeResult.keep]

/-- Claim C1: `RuleSet::test` returns `Exclude` whenever some include entry
and some exclude entry both match the repository, `Include` when an include
entry matches and no exclude entry matches, and `Default` when no include
entry matches, even if an exclude entry would have matched. -/
theorem C1_test_precedence (rs : Include.RuleSet) (r : Github.Repo) :
    ((∃ i ∈ rs.includes, i.matches r) → (∃ x ∈ rs.excludes, x.matches r) →
      ∃ i x, rs.test r = .exclude i x ∧
        i ∈ rs.includes ∧ i.matches r ∧ x ∈ rs.excludes ∧ x.matches r) ∧
    ((∃ i ∈ rs.includes, i.matches r) → (∀ x ∈ rs.excludes, ¬ x.matches r) →
      ∃ i, rs.test r = .include' i ∧ i ∈ rs.includes ∧ i.matches r) ∧
    ((∀ i ∈ rs.includes, ¬ i.matches r) → rs.test r = .default) := by
  refine ⟨?_, ?_, ?_⟩
  · rintro ⟨i0, hi0, hm0⟩ ⟨x0, hx0, hxm0⟩
    unfold Include.RuleSet.test
    cases h1 : rs.includes.find? (fun e => e.matches r) with
    | none =>
      exact absurd hm0 (by simpa using List.find?_eq_none.mp h1 i0 hi0)
    | some i =>
      have hip := List.find?_some h1
      cases h2 : rs.excludes.find? (fun e => e.matches r) with
      | none =>
        exact absurd hxm0 (by simpa using List.find?_eq_none.mp h2 x0 hx0)
      | some x =>
        have hxp := List.find?_some h2
        exact ⟨i, x, rfl, List.mem_of_find?_eq_some h1, hip,
          List.mem_of_find?_eq_some h2, hxp⟩
  · rintro ⟨i0, hi0, hm0⟩ hno
    unfold Include.RuleSet.test
    cases h1 : rs.includes.find? (fun e => e.matches r) with
    | none =>
      exact absurd hm0 (by simpa using List.find?_eq_none.mp h1 i0 hi0)
    | some i =>
      have hip := List.find?_some h1
      cases h2 : rs.excludes.find? (fun e => e.matches r) with
      | none =>
        exact ⟨i, rfl, List.mem_of_find?_eq_some h1, hip⟩
      | some x =>
        have hxp := List.find?_some h2
        exact absurd hxp (by simpa using hno x (List.mem_of_find?_eq_some h2))
  · intro hno
    unfold Include.RuleSet.test
    cases h1 : rs.includes.find? (fun e => e.matches r) with
    | none => rfl
    | some i =>
      have hip := List.find?_some h1
      exact absurd hip (by simpa using hno i (List.mem_of_find?_eq_some h1))

/-- Claim C1, instantiated: the exclude branch at `rsW`/`repoFoo`, the include
branch at `rsW2`/`repoFoo`, and the default branch at `rsW2` with a repository
owned by someone else. -/
theorem C1_test_precedence_witness :
    (∃ i x, rsW.test repoFoo = .exclude i x ∧
      i ∈ rsW.includes ∧ i.matches repoFoo ∧ x ∈ rsW.excludes ∧ x.matches repoFoo) ∧
    (∃ i, rsW2.test repoFoo = .include' i ∧ i ∈ rsW2.includes ∧ i.matches repoFoo) ∧
    rsW2.test repoBar = .default := by
  refine ⟨(C1_test_precedence rsW repoFoo).1 (by decide) (by decide),
    (C1_test_precedence rsW2 repoFoo).2.1 (by decide) (by decide), ?_⟩
  exact (C1_test_precedence rsW2 repoBar).2.2 (by decide)

/-- Claim C3 counterexample: with the rule set absent, `main` applies no
filter at all, so a nonempty catalog is kept in full, not dropped. -/
theorem C3_absent_counterexample :
    Include.applyIncludes none [repoFoo] = [repoFoo] ∧
    [repoFoo] ≠ ([] : List Github.Repo) := by
  exact ⟨rfl, by decide⟩

/-- Claim C3 (amended): a present rule set with no include entries drops every
repository; but an absent rule set is not applied at all, so every repository
is kept. -/
theorem C3_empty_vs_absent (excludes : List Include.Entry)
    (repos : List Github.Repo) :
    Include.applyIncludes (some ⟨[], excludes⟩) repos = [] ∧
    Include.applyIncludes none repos = repos := by
  constructor
  · simp [Include.applyIncludes, Include.RuleSet.apply, Include.RuleSet.test,
      Include.IncludeResult.keep, List.filter_eq_nil_iff]
  · rfl

/-- Claim C9: merging two rule sets in either order yields the same keep/drop
decision for every repository, since the verdict depends only on existence of
a matching include and a matching exclude. -/
theorem C9_merge_comm_keep (a b : Include.RuleSet) (r : Github.Repo) :
    ((a.merge b).test r).keep = ((b.merge a).test r).keep := by
  simp only [keep_test_eq, Include.RuleSet.merge, List.any_append]
  rw [Bool.or_comm (a.includes.any fun e => e.matches r),
    Bool.or_comm (a.excludes.any fun e => e.matches r)]

/-- A successful `Entry::from_str` has a nonempty value, the text after the
first colon. -/
theorem entryFromChars_ok (m : List Char) (e : Include.Entry)
    (h : Include.entryFromChars m = .ok e) :
    ∃ v, (splitFirstColon m).2 = some v ∧ v ≠ [] ∧ e.value = ⟨v⟩ := by
  unfold Include.entryFromChars at h
  split at h
  · exact absurd h (by simp)
  · split at h
    · next v heq =>
      split at h
      · exact absurd h (by simp)
      · split at h
        · exact absurd h (by simp)
        · next hvne _ =>
          cases h
          exact ⟨v, heq, hvne, rfl⟩
    · exact absurd h (by simp)

/-- Reduction of the per-line step once the trimmed line is known. -/
theorem lineStepChars_cons (c : Char) (rest : List Char) (l : List Char)
    (ht : trimChars l = c :: rest) :
    Include.lineStepChars l =
      if c = '#' then .ok .skip
      else if c = '!' then (Include.entryFromChars rest).map (Include.LineOut.entry true)
      else (Include.entryFromChars (c :: rest)).map (Include.LineOut.entry false) := by
  unfold Include.lineStepChars
  rw [ht]

/-- A successful entry parsed from a character list whose last character is
not whitespace has a nonempty value that does not end in whitespace. -/
theorem entry_value_shape (m : List Char) (e : Include.Entry)
    (he : Include.entryFromChars m = .ok e)
    (hlast : ∀ c, m.getLast? = some c → isRustWs c = false) :
    e.value ≠ "" ∧ ∀ c, e.value.data.getLast? = some c → isRustWs c = false := by
  obtain ⟨v, hv2, hvne, hval⟩ := entryFromChars_ok m e he
  have hfull : splitFirstColon m = ((splitFirstColon m).1, some v) := by
    rw [← hv2]
  have hm := splitFirstColon_eq m _ v hfull
  constructor
  · intro h0
    apply hvne
    have h1 : (⟨v⟩ : String) = "" := by
      rw [← hval]
      exact h0
    exact congrArg String.data h1
  · intro ch hch
    rw [hval] at hch
    have hchv : v.getLast? = some ch := hch
    have hmlast : m.getLast? = some ch := by
      rw [hm, getLast?_append_ne _ _ (by simp), getLast?_cons_ne _ _ hvne]
      exact hchv
    exact hlast ch hmlast

/-- The value of any entry produced by the per-line step of
`RuleSet::from_str` is nonempty and does not end in whitespace. -/
theorem lineStep_value_trimmed (l : List Char) (b : Bool) (e : Include.Entry)
    (h : Include.lineStepChars l = .ok (.entry b e)) :
    e.value ≠ "" ∧ ∀ c, e.value.data.getLast? = some c → isRustWs c = false := by
  cases ht : trimChars l with
  | nil =>
    have hskip : Include.lineStepChars l = .ok .skip := by
      unfold Include.lineStepChars
      rw [ht]
    rw [hskip] at h
    exact absurd h (by simp)
  | cons c rest =>
    rw [lineStepChars_cons c rest l ht] at h
    by_cases hc : c = '#'
    · rw [if_pos hc] at h
      exact absurd h (by simp)
    rw [if_neg hc] at h
    by_cases hx : c = '!'
    · rw [if_pos hx] at h
      cases he : Include.entryFromChars rest with
      | error k =>
        rw [he] at h
        exact absurd h (by simp [Except.map])
      | ok e' =>
        rw [he] at h
        simp only [Except.map, Except.ok.injEq, Include.LineOut.entry.injEq] at h
        obtain ⟨_, he'⟩ := h
        subst he'
        refine entry_value_shape rest e' he ?_
        intro ch hch
        have hrne : rest ≠ [] := by
          cases rest
          · simp at hch
          · simp
        have hl2 : (trimChars l).getLast? = some ch := by
          rw [ht, getLast?_cons_ne _ _ hrne]
          exact hch
        exact trimChars_getLast?_false _ _ hl2
    · rw [if_neg hx] at h
      cases he : Include.entryFromChars (c :: rest) with
      | error k =>
        rw [he] at h
        exact absurd h (by simp [Except.map])
      | ok e' =>
        rw [he] at h
        simp only [Except.map, Except.ok.injEq, Include.LineOut.entry.injEq] at h
        obtain ⟨_, he'⟩ := h
        subst he'
        refine entry_value_shape (c :: rest) e' he ?_
        intro ch hch
        have hl2 : (trimChars l).getLast? = some ch := by
          rw [ht]
          exact hch
        exact trimChars_getLast?_false _ _ hl2

/-- The first erroring line determines `RuleSet::from_str`'s error and is
reported at its 0-based index plus one. -/
theorem fromLinesAux_error (pre : List String) :
    ∀ (acc : Include.RuleSet) (i : Nat) (bad : String) (rest : List String)
      (k : Include.ErrorKind),
    (∀ ln ∈ pre, ∃ o, Include.lineStepChars ln.data = .ok o) →
    Include.lineStepChars bad.data = .error k →
    Include.fromLinesAux acc i (pre ++ bad :: rest) = .error ⟨k, i + pre.length + 1⟩ := by
  induction pre with
  | nil =>
    intro acc i bad rest k _ hbad
    simp [Include.fromLinesAux, hbad]
  | cons ln pre ih =>
    intro acc i bad rest k hok hbad
    obtain ⟨o, ho⟩ := hok ln (by simp)
    have hok' : ∀ l ∈ pre, ∃ o, Include.lineStepChars l.data = .ok o :=
      fun l hl => hok l (by simp [hl])
    cases o with
    | skip =>
      rw [List.cons_append]
      simp only [Include.fromLinesAux, ho]
      rw [ih acc (i + 1) bad rest k hok' hbad]
      simp only [Except.error.injEq, Include.Error.mk.injEq, List.length_cons]
      exact ⟨trivial, by omega⟩
    | entry bfl ent =>
      rw [List.cons_append]
      simp only [Include.fromLinesAux, ho]
      rw [ih (acc.pushEntry bfl ent) (i + 1) bad rest k hok' hbad]
      simp only [Except.error.injEq, Include.Error.mk.injEq, List.length_cons]
      exact ⟨trivial, by omega⟩

/-- The first erroring line determines `IgnoreFile::from_str`'s error and is
reported at its 0-based index itself. -/
theorem ignoreLinesAux_error (pre : List String) :
    ∀ (acc : Ignore.IgnoreFile) (i : Nat) (bad : String) (rest : List String)
      (k : Ignore.IgnoreFileErrorKind),
    (∀ ln ∈ pre, ∃ o, Ignore.ignoreLineStep ln.data = .ok o) →
    Ignore.ignoreLineStep bad.data = .error k →
    Ignore.ignoreLinesAux acc i (pre ++ bad :: rest) = .error ⟨k, i + pre.length⟩ := by
  induction pre with
  | nil =>
    intro acc i bad rest k _ hbad
    simp [Ignore.ignoreLinesAux, hbad]
  | cons ln pre ih =>
    intro acc i bad rest k hok hbad
    obtain ⟨o, ho⟩ := hok ln (by simp)
    have hok' : ∀ l ∈ pre, ∃ o, Ignore.ignoreLineStep l.data = .ok o :=
      fun l hl => hok l (by simp [hl])
    cases o with
    | skip =>
      rw [List.cons_append]
      simp only [Ignore.ignoreLinesAux, ho]
      rw [ih acc (i + 1) bad rest k hok' hbad]
      simp only [Except.error.injEq, Ignore.IgnoreFileError.mk.injEq, List.length_cons]
      exact ⟨trivial, by omega⟩
    | entry bfl ent =>
      rw [List.cons_append]
      simp only [Ignore.ignoreLinesAux, ho]
      rw [ih (acc.pushEntry bfl ent) (i + 1) bad rest k hok' hbad]
      simp only [Except.error.injEq, Ignore.IgnoreFileError.mk.injEq, List.length_cons]
      exact ⟨trivial, by omega⟩

/-- Claim C7 counterexample: in src/ignore.rs the analogous parser reports
the 0-based line index — the offending line `owner` on 1-based line 2 of
`"# c\nowner"` is reported as line 1 — and an empty value after the colon
parses successfully instead of failing with MissingValue. -/
theorem C7_counterexample :
    Ignore.IgnoreFile.from_str "# c\nowner" =
      .error ⟨.MissingValue "owner", 1⟩ ∧
    Ignore.IgnoreFile.from_str "owner:" =
      .ok ⟨[⟨.Owner, ""⟩], []⟩ := by
  exact ⟨rfl, rfl⟩

/-- Claim C7 (amended): in src/include.rs a recognized selector with a
missing or empty value fails with MissingValue and errors carry the 1-based
line number; in src/ignore.rs errors carry the 0-based line index, and an
empty value after the colon parses successfully. -/
theorem C7_parse_errors :
    (∀ selStr ∈ selectorStrings,
      Include.Entry.from_str selStr = .error (.MissingValue selStr) ∧
      Include.Entry.from_str (selStr ++ ":") = .error (.MissingValue (selStr ++ ":"))) ∧
    (∀ (s : String) (pre : List String) (bad : String) (rest : List String)
        (k : Include.ErrorKind),
      rustLines s = pre ++ bad :: rest →
      (∀ ln ∈ pre, ∃ o, Include.lineStepChars ln.data = .ok o) →
      Include.lineStepChars bad.data = .error k →
      Include.RuleSet.from_str s = .error ⟨k, pre.length + 1⟩) ∧
    (∀ (s : String) (pre : List String) (bad : String) (rest : List String)
        (k : Ignore.IgnoreFileErrorKind),
      rustLines s = pre ++ bad :: rest →
      (∀ ln ∈ pre, ∃ o, Ignore.ignoreLineStep ln.data = .ok o) →
      Ignore.ignoreLineStep bad.data = .error k →
      Ignore.IgnoreFile.from_str s = .error ⟨k, pre.length⟩) ∧
    (∀ selStr ∈ ignorePlainSelectorStrings, ∃ sel,
      Ignore.ignoreLineStep (selStr ++ ":").data = .ok (.entry false ⟨sel, ""⟩)) := by
  refine ⟨?_, ?_, ?_, ?_⟩
  · intro selStr hs
    simp only [selectorStrings, List.mem_cons, List.not_mem_nil, or_false] at hs
    rcases hs with rfl | rfl | rfl | rfl | rfl | rfl <;> exact ⟨rfl, rfl⟩
  · intro s pre bad rest k hsplit hok hbad
    unfold Include.RuleSet.from_str
    rw [hsplit, fromLinesAux_error pre Include.RuleSet.new 0 bad rest k hok hbad]
    simp
  · intro s pre bad rest k hsplit hok hbad
    unfold Ignore.IgnoreFile.from_str
    rw [hsplit, ignoreLinesAux_error pre Ignore.IgnoreFile.new 0 bad rest k hok hbad]
    simp
  · intro selStr hs
    simp only [ignorePlainSelectorStrings, List.mem_cons, List.not_mem_nil, or_false] at hs
    rcases hs with rfl | rfl | rfl | rfl
    · exact ⟨.All, rfl⟩
    · exact ⟨.Owner, rfl⟩
    · exact ⟨.Name, rfl⟩
    · exact ⟨.FullName, rfl⟩

/-- Claim C7, instantiated: `owner` as a lone entry fails with MissingValue;
in `"# c\nowner:"` the empty-value line is line 2 (1-based) and the rule-set
parser reports exactly line 2; the ignore parser accepts `owner:`. -/
theorem C7_parse_errors_witness :
    Include.Entry.from_str "owner" = .error (.MissingValue "owner") ∧
    Include.RuleSet.from_str "# c\nowner:" = .error ⟨.MissingValue "owner:", 2⟩ ∧
    (∃ sel, Ignore.ignoreLineStep ("owner" ++ ":").data = .ok (.entry false ⟨sel, ""⟩)) := by
  refine ⟨(C7_parse_errors.1 "owner" (by simp [selectorStrings])).1, ?_,
    C7_parse_errors.2.2.2 "owner" (by simp [ignorePlainSelectorStrings])⟩
  have h := C7_parse_errors.2.1 "# c\nowner:" ["# c"] "owner:" []
    (.MissingValue "owner:") rfl ?_ rfl
  · exact h
  · intro ln hl
    simp only [List.mem_singleton] at hl
    subst hl
    exact ⟨.skip, rfl⟩

/-- Claim C10: the per-line step of rule parsing trims each line before
interpreting it: surrounding whitespace never changes the outcome, a
whitespace-only line is skipped, an indented comment line is skipped, a
leading `!` after indentation still marks an exclude, and a parsed entry's
value is nonempty and never ends in whitespace (so it is not a byte-verbatim
substring of a line with trailing whitespace, while interior spaces survive). -/
theorem C10_trimming :
    (∀ w1 core w2 : List Char, (∀ c ∈ w1, isRustWs c = true) →
      (∀ c ∈ w2, isRustWs c = true) →
      (∀ c, core.head? = some c → isRustWs c = false) →
      (∀ c, core.getLast? = some c → isRustWs c = false) →
      Include.lineStepChars (w1 ++ core ++ w2) = Include.lineStepChars core) ∧
    (∀ l : List Char, (∀ c ∈ l, isRustWs c = true) →
      Include.lineStepChars l = .ok .skip) ∧
    (∀ w rest : List Char, (∀ c ∈ w, isRustWs c = true) →
      Include.lineStepChars (w ++ '#' :: rest) = .ok .skip) ∧
    (∀ w rest : List Char, (∀ c ∈ w, isRustWs c = true) →
      Include.lineStepChars (w ++ '!' :: rest) =
        (Include.entryFromChars (rtrimChars rest)).map (Include.LineOut.entry true)) ∧
    (∀ (l : List Char) (b : Bool) (e : Include.Entry),
      Include.lineStepChars l = .ok (.entry b e) →
      e.value ≠ "" ∧ ∀ c, e.value.data.getLast? = some c → isRustWs c = false) := by
  refine ⟨?_, ?_, ?_, ?_, lineStep_value_trimmed⟩
  · intro w1 core w2 h1 h2 hh hl
    have hA : trimChars (w1 ++ core ++ w2) = core :=
      trimChars_append_both w1 core w2 h1 h2 hh hl
    have hB : trimChars core = core := by
      have h := trimChars_append_both [] core [] (by simp) (by simp) hh hl
      simpa using h
    unfold Include.lineStepChars
    rw [hA, hB]
  · intro l hws
    unfold Include.lineStepChars
    have h : trimChars l = [] := by
      unfold trimChars ltrimChars
      rw [List.dropWhile_eq_nil_iff.mpr hws]
      rfl
    rw [h]
  · intro w rest hw
    unfold Include.lineStepChars
    have h : trimChars (w ++ '#' :: rest) = '#' :: rtrimChars rest := by
      unfold trimChars ltrimChars
      rw [dropWhile_append_all _ _ _ hw, List.dropWhile_cons, if_neg (by decide)]
      exact rtrimChars_cons _ _ (by decide)
    rw [h]
    rfl
  · intro w rest hw
    unfold Include.lineStepChars
    have h : trimChars (w ++ '!' :: rest) = '!' :: rtrimChars rest := by
      unfold trimChars ltrimChars
      rw [dropWhile_append_all _ _ _ hw, List.dropWhile_cons, if_neg (by decide)]
      exact rtrimChars_cons _ _ (by decide)
    rw [h]
    rfl

/-- Claim C10, instantiated: indentation and trailing whitespace do not change
the parse of `owner:a b`, and the indented ` !owner:x ` parses as an exclude
whose value is `x` — interior spaces preserved, surrounding whitespace gone. -/
theorem C10_trimming_witness :
    Include.lineStepChars ("  owner:a b ".data) = Include.lineStepChars ("owner:a b".data) ∧
    Include.lineStepChars (" !owner:x ".data) =
      (Include.entryFromChars (rtrimChars "owner:x ".data)).map (Include.LineOut.entry true) ∧
    Include.lineStepChars (" !owner:x ".data) = .ok (.entry true ⟨.Owner, "x"⟩) ∧
    Include.lineStepChars ("  owner:a b ".data) = .ok (.entry false ⟨.Owner, "a b"⟩) := by
  have h1 := C10_trimming.1 "  ".data "owner:a b".data " ".data
    (by decide) (by decide) (by decide) (by decide)
  have happ1 : "  ".data ++ "owner:a b".data ++ " ".data = "  owner:a b ".data := by decide
  rw [happ1] at h1
  have h4 := C10_trimming.2.2.2.1 " ".data "owner:x ".data (by decide)
  have happ2 : " ".data ++ '!' :: "owner:x ".data = " !owner:x ".data := by decide
  rw [happ2] at h4
  refine ⟨h1, h4, ?_, ?_⟩
  · rw [h4]
    rfl
  · rw [h1]
    rfl

/-- Index into the right part of an append. -/
theorem getElem?_append_right' {α : Type} (l₁ l₂ : List α) (n : Nat) :
    (l₁ ++ l₂)[l₁.length + n]? = l₂[n]? := by
  induction l₁ with
  | nil => simp
  | cons a t ih =>
    have harith : (a :: t).length + n = (t.length + n) + 1 := by
      simp [List.length_cons]
      omega
    rw [harith, List.cons_append]
    simpa using ih

/-- The descending scan returns the greatest match-end position. -/
theorem lastSpliceIdxAux_eq (l : List Char) (jm : Nat) :
    ∀ n, jm ≤ n → Gource.spliceAt l jm = true →
    (∀ j, jm < j → j ≤ n → Gource.spliceAt l j = false) →
    Gource.lastSpliceIdxAux l n = some jm
  | 0, hle, hsp, _ => by
    have hz : jm = 0 := Nat.le_zero.mp hle
    subst hz
    simp [Gource.spliceAt] at hsp
  | n + 1, hle, hsp, hno => by
    by_cases h : jm = n + 1
    · subst h
      unfold Gource.lastSpliceIdxAux
      rw [if_pos hsp]
    · have hlt : jm ≤ n := by omega
      have hfalse : Gource.spliceAt l (n + 1) = false := hno (n + 1) (by omega) (le_refl _)
      unfold Gource.lastSpliceIdxAux
      rw [if_neg (by simp [hfalse])]
      exact lastSpliceIdxAux_eq l jm n hlt hsp fun j h1 h2 => hno j h1 (by omega)

/-- `spliceLine` on a line of the shape `a|c|b` with no pipe in `b`:
capture 1 ends right after `|c|` and `/name` is spliced there. -/
theorem spliceLine_eq (name : String) (a b : List Char) (c : Char)
    (hnb : '|' ∉ b) :
    Gource.spliceLine name (a ++ '|' :: c :: '|' :: b) =
      a ++ '|' :: c :: '|' :: '/' :: name.data ++ b := by
  set l := a ++ '|' :: c :: '|' :: b with hl
  have hres : l = (a ++ ['|', c, '|']) ++ b := by simp [hl]
  have hlen : l.length = a.length + 3 + b.length := by
    simp [hl]
    omega
  have h1 : l[a.length + 2]? = some '|' := by
    rw [hl, getElem?_append_right' a _ 2]
    simp
  have h2 : l[a.length]? = some '|' := by
    rw [hl]
    have h0 := getElem?_append_right' a ('|' :: c :: '|' :: b) 0
    simpa using h0
  have hmark : Gource.spliceAt l (a.length + 3) = true := by
    unfold Gource.spliceAt
    have e1 : a.length + 3 - 1 = a.length + 2 := by omega
    have e3 : a.length + 3 - 3 = a.length := by omega
    rw [e1, e3, h1, h2]
    simp [Nat.le_add_left]
  have hno : ∀ j, a.length + 3 < j → j ≤ l.length → Gource.spliceAt l j = false := by
    intro j hj1 _
    unfold Gource.spliceAt
    obtain ⟨m, hm⟩ : ∃ m, j - 1 = (a ++ ['|', c, '|']).length + m := by
      refine ⟨j - 1 - (a.length + 3), ?_⟩
      simp
      omega
    have hget : l[j - 1]? = b[m]? := by
      rw [hres, hm, getElem?_append_right']
    cases hbm : b[m]? with
    | none => simp [hget, hbm]
    | some ch =>
      have hch : ch ∈ b := by
        obtain ⟨hlt, heq⟩ := List.getElem?_eq_some.mp hbm
        exact heq ▸ List.getElem_mem hlt
      have hne : ch ≠ '|' := fun hcontra => hnb (hcontra ▸ hch)
      simp [hget, hbm, hne]
  have hidx : Gource.lastSpliceIdx l = some (a.length + 3) := by
    unfold Gource.lastSpliceIdx
    exact lastSpliceIdxAux_eq l (a.length + 3) l.length (by omega) hmark hno
  have harr : a.length + 3 = (a ++ ['|', c, '|']).length := by simp
  have ht : l.take (a.length + 3) = a ++ ['|', c, '|'] := by
    rw [hres, harr, List.take_left]
  have hd : l.drop (a.length + 3) = b := by
    rw [hres, harr, List.drop_left]
  unfold Gource.spliceLine
  rw [hidx]
  show l.take (a.length + 3) ++ '/' :: name.data ++ l.drop (a.length + 3) =
    a ++ '|' :: c :: '|' :: '/' :: name.data ++ b
  rw [ht, hd]
  simp

/-- A diacritic-free text is unchanged by the diacritics map. -/
theorem applyDia_id (dia : Char → List Char) :
    ∀ l : List Char, (∀ ch ∈ l, dia ch = [ch]) → Gource.applyDia dia l = l
  | [], _ => rfl
  | a :: t, h => by
    unfold Gource.applyDia
    simp only [List.map_cons, List.flatten_cons, h a (by simp)]
    have ih := applyDia_id dia t fun ch hch => h ch (by simp [hch])
    unfold Gource.applyDia at ih
    rw [ih]
    rfl

/-- A quote-free text is unchanged by quote removal. -/
theorem removeQuotes_id (l : List Char)
    (h : ∀ ch ∈ l, Gource.isQuoteChar ch = false) :
    Gource.removeQuotes l = l := by
  unfold Gource.removeQuotes
  rw [List.filter_eq_self]
  intro a ha
  simp [h a ha]

/-- A separator-free list splits to a single piece. -/
theorem splitOnChar_no_sep (sep : Char) :
    ∀ l : List Char, sep ∉ l → splitOnChar sep l = [l]
  | [], _ => rfl
  | a :: t, h => by
    have ha : ¬(a = sep) := fun hx => h (by simp [hx])
    have ht : sep ∉ t := fun hx => h (by simp [hx])
    unfold splitOnChar
    rw [if_neg ha, splitOnChar_no_sep sep t ht]

/-- On a newline-free line the whole-log transform is the per-line
transform. -/
theorem normalizeLog_single (dia : Char → List Char) (repo : Gh.Repo)
    (line : List Char) (h : '\n' ∉ line) :
    Gource.normalizeLog dia repo line = Gource.normalizeLine dia repo line := by
  unfold Gource.normalizeLog Gource.normalizeLine Gource.spliceLog
  rw [show splitOnNl line = [line] from splitOnChar_no_sep '\n' line h]
  simp [joinNl, List.intercalate]

/-- Claim C6 counterexample: the code splices the repository's `name` field
(`n`), not the data-model identity `full_name` (`o/n`): on the quote- and
diacritic-free line `1|A|/f` the code produces `1|A|/n/f`, while the claim
demands `1|A|/o/n/f`. -/
theorem C6_counterexample :
    Gource.normalizeLine diaId repoG1 ("1|A|/f".data) = "1|A|/n/f".data ∧
    Gource.claimedNormalizeLine repoG1 ("1|A|/f".data) = "1|A|/o/n/f".data ∧
    Gource.normalizeLine diaId repoG1 ("1|A|/f".data) ≠
      Gource.claimedNormalizeLine repoG1 ("1|A|/f".data) := by
  refine ⟨rfl, rfl, by decide⟩

/-- Claim C6 (amended): a line with no quote characters and no diacritical
marks is unchanged by normalization except that `/` followed by the
repository's `name` field (not its `full_name`) is spliced in right after the
last single-character pipe-delimited marker `|<char>|`; stated for a line
`a|c|b` whose tail `b` has no further pipe, so that marker is the splice
point.  On a newline-free line the whole-log transform agrees. -/
theorem C6_splice_name (dia : Char → List Char) (repo : Gh.Repo)
    (a b : List Char) (c : Char) (hnb : '|' ∉ b)
    (hq : ∀ ch ∈ a ++ '|' :: c :: '|' :: '/' :: repo.name.data ++ b,
      Gource.isQuoteChar ch = false)
    (hdia : ∀ ch ∈ a ++ '|' :: c :: '|' :: '/' :: repo.name.data ++ b,
      dia ch = [ch]) :
    Gource.normalizeLine dia repo (a ++ '|' :: c :: '|' :: b) =
      a ++ '|' :: c :: '|' :: '/' :: repo.name.data ++ b ∧
    ('\n' ∉ a ++ '|' :: c :: '|' :: b →
      Gource.normalizeLog dia repo (a ++ '|' :: c :: '|' :: b) =
        a ++ '|' :: c :: '|' :: '/' :: repo.name.data ++ b) := by
  have h1 : Gource.normalizeLine dia repo (a ++ '|' :: c :: '|' :: b) =
      a ++ '|' :: c :: '|' :: '/' :: repo.name.data ++ b := by
    unfold Gource.normalizeLine
    rw [spliceLine_eq repo.name a b c hnb, applyDia_id dia _ hdia,
      removeQuotes_id _ hq]
  refine ⟨h1, fun hnl => ?_⟩
  rw [normalizeLog_single dia repo _ hnl]
  exact h1

/-- Claim C6, instantiated at the line `1|A|/f` for a repository named `n`:
the output is `1|A|/n/f`. -/
theorem C6_splice_name_witness :
    Gource.normalizeLine diaId repoG1 ("1|A|/f".data) = "1|A|/n/f".data := by
  have h := (C6_splice_name diaId repoG1 "1".data "/f".data 'A'
    (by decide) (by decide) (by decide)).1
  have happ : "1".data ++ '|' :: 'A' :: '|' :: "/f".data = "1|A|/f".data := by decide
  have happ2 : "1".data ++ '|' :: 'A' :: '|' :: '/' :: repoG1.name.data ++ "/f".data =
      "1|A|/n/f".data := by decide
  rw [happ, happ2] at h
  exact h

/-- Claim C4: in render+encode mode, once the stream copy has succeeded and
the renderer's exit status is observed non-success, the function fails with
the error built from the renderer's stderr — the stderr text is a suffix of
the message — and it returns before awaiting the encoder, which is therefore
never reported successful. -/
theorem C4_renderer_failure (env : Gource.VideoEnv) (stderr : String)
    (hsp1 : env.ffmpegSpawn = .ok ()) (hsp2 : env.gourceSpawn = .ok ())
    (hcopy : env.copyOut = .ok ()) (hwait : env.gourceWait = .ok false)
    (hread : env.gourceStderrRead = .ok stderr) :
    (Gource.executeGourceVideo env).result =
      .error ("Failed to generate video: " ++ stderr) ∧
    (∃ p, (Gource.executeGourceVideo env).result = .error (p ++ stderr)) ∧
    (Gource.executeGourceVideo env).waitedFfmpeg = false := by
  unfold Gource.executeGourceVideo
  rw [hsp1, hsp2, hcopy, hwait, hread]
  exact ⟨rfl, ⟨"Failed to generate video: ", rfl⟩, rfl⟩

/-- Claim C4, instantiated at a renderer failing with stderr `boom`. -/
theorem C4_renderer_failure_witness :
    (Gource.executeGourceVideo videoEnvW).result =
      .error ("Failed to generate video: " ++ "boom") ∧
    (∃ p, (Gource.executeGourceVideo videoEnvW).result = .error (p ++ "boom")) ∧
    (Gource.executeGourceVideo videoEnvW).waitedFfmpeg = false :=
  C4_renderer_failure videoEnvW "boom" rfl rfl rfl rfl rfl

/-- Claim C5 counterexample: in render-only mode the renderer's nonzero exit
status is observed (`.ok false`) and yet the operation returns success — the
awaited status is discarded by `let _ = cmd.status()`, so no failure is
surfaced. -/
theorem C5_counterexample :
    Gource.executeGourceRenderOnly (.ok false) = .ok () ∧
    ¬ ∃ msg, Gource.executeGourceRenderOnly (.ok false) = .error msg := by
  refine ⟨rfl, ?_⟩
  rintro ⟨msg, hmsg⟩
  exact absurd hmsg (by simp [Gource.executeGourceRenderOnly])

/-- Claim C5 (amended): render-only mode awaits the renderer but ignores its
exit code entirely: any observed exit status — success or not — yields
success, and only an I/O failure to execute and await the command is surfaced
as an error. -/
theorem C5_render_only_ignores_status (flag : Bool) (e : String) :
    Gource.executeGourceRenderOnly (.ok flag) = .ok () ∧
    Gource.executeGourceRenderOnly (.error e) =
      .error (contextMsg "failed to execute gource command" e) :=
  ⟨rfl, rfl⟩

/-- When every log reads successfully, the combined text is the in-order
concatenation. -/
theorem combineLogs_ok (readLog : Gh.Repo → Except String String)
    (f : Gh.Repo → String) :
    ∀ repos : List Gh.Repo, (∀ r ∈ repos, readLog r = .ok (f r)) →
    Qsv.combineLogs readLog repos = .ok ((repos.map f).foldr (· ++ ·) "")
  | [], _ => rfl
  | r :: rest, h => by
    unfold Qsv.combineLogs
    rw [h r (by simp), combineLogs_ok readLog f rest fun x hx => h x (by simp [hx])]
    rfl

/-- An unreadable log anywhere in the catalog aborts the combine step. -/
theorem combineLogs_error (readLog : Gh.Repo → Except String String) :
    ∀ (repos : List Gh.Repo) (r : Gh.Repo), r ∈ repos →
    (∃ e, readLog r = .error e) →
    ∃ e', Qsv.combineLogs readLog repos = .error e'
  | [], r, hr, _ => absurd hr (by simp)
  | x :: rest, r, hr, hex => by
    unfold Qsv.combineLogs
    cases hx : readLog x with
    | error e2 => exact ⟨contextMsg "failed to read gource log file" e2, rfl⟩
    | ok s =>
      obtain ⟨e, he⟩ := hex
      have hrr : r ∈ rest := by
        rcases List.mem_cons.mp hr with hcase | hcase
        · subst hcase
          rw [he] at hx
          cases hx
        · exact hcase
      obtain ⟨e', he'⟩ := combineLogs_error readLog rest r hrr ⟨e, he⟩
      rw [he']
      exact ⟨e', rfl⟩

/-- Claim C8: the merge stage reads every surviving repository's log in
catalog order and concatenates full contents before sorting: when every read
succeeds the qsv pipeline receives exactly the in-order concatenation, and if
any repository's log is missing or unreadable the whole stage returns an
error. -/
theorem C8_combine_and_sort (env : Qsv.MergeEnv) (repos : List Gh.Repo)
    (f : Gh.Repo → String) :
    ((∀ r ∈ repos, env.readLog r = .ok (f r)) →
      Qsv.combine_and_sort_logs env repos =
        env.qsvPipeline ((repos.map f).foldr (· ++ ·) "")) ∧
    (∀ r ∈ repos, (∃ e, env.readLog r = .error e) →
      ∃ e', Qsv.combine_and_sort_logs env repos = .error e') := by
  constructor
  · intro hall
    unfold Qsv.combine_and_sort_logs
    rw [combineLogs_ok env.readLog f repos hall]
  · intro r hr hex
    obtain ⟨e', he'⟩ := combineLogs_error env.readLog repos r hr hex
    unfold Qsv.combine_and_sort_logs
    rw [he']
    exact ⟨e', rfl⟩

/-- Claim C8, instantiated: with both logs readable the qsv pipeline receives
the in-order concatenation, and with the second log unreadable the whole
stage errors. -/
theorem C8_combine_and_sort_witness :
    Qsv.combine_and_sort_logs mergeEnvW [repoG1, repoG2] =
      mergeEnvW.qsvPipeline
        (([repoG1, repoG2].map fun r =>
          if r = repoG1 then "1|A|x\n" else "2|M|y\n").foldr (· ++ ·) "") ∧
    ∃ e', Qsv.combine_and_sort_logs mergeEnvFailW [repoG1, repoG2] = .error e' := by
  constructor
  · refine (C8_combine_and_sort mergeEnvW [repoG1, repoG2]
      (fun r => if r = repoG1 then "1|A|x\n" else "2|M|y\n")).1 ?_
    intro r hr
    fin_cases hr <;> rfl
  · exact (C8_combine_and_sort mergeEnvFailW [repoG1, repoG2] (fun _ => "")).2
      repoG2 (by simp) ⟨"missing", rfl⟩

/-- The clone loop attempts repositories in order and stops at the first
fetch failure, wrapping it with the repository's full name. -/
theorem cloneAllTrace_error (fetch : Github.Repo → Except String Unit) :
    ∀ (pre : List Github.Repo) (bad : Github.Repo) (rest : List Github.Repo)
      (e : String),
    (∀ r ∈ pre, fetch r = .ok ()) → fetch bad = .error e →
    MainMod.cloneAllTrace fetch (pre ++ bad :: rest) =
      (.error (contextMsg ("failed to fetch repo " ++ bad.fullName) e), pre ++ [bad])
  | [], bad, rest, e, _, hbad => by
    simp only [List.nil_append, MainMod.cloneAllTrace, hbad]
  | r :: pre, bad, rest, e, hok, hbad => by
    have h0 : fetch r = .ok () := hok r (by simp)
    have ih := cloneAllTrace_error fetch pre bad rest e
      (fun x hx => hok x (by simp [hx])) hbad
    rw [List.cons_append]
    simp only [MainMod.cloneAllTrace, h0, ih]
    simp

/-- The log-generation loop attempts repositories in order and stops at the
first failure, wrapping it with the repository's full name. -/
theorem genLogsTrace_error (gen : Github.Repo → Except String Unit) :
    ∀ (pre : List Github.Repo) (bad : Github.Repo) (rest : List Github.Repo)
      (e : String),
    (∀ r ∈ pre, gen r = .ok ()) → gen bad = .error e →
    MainMod.genLogsTrace gen (pre ++ bad :: rest) =
      (.error (contextMsg ("failed to generate gource log for " ++ bad.fullName) e),
        pre ++ [bad])
  | [], bad, rest, e, _, hbad => by
    simp only [List.nil_append, MainMod.genLogsTrace, hbad]
  | r :: pre, bad, rest, e, hok, hbad => by
    have h0 : gen r = .ok () := hok r (by simp)
    have ih := genLogsTrace_error gen pre bad rest e
      (fun x hx => hok x (by simp [hx])) hbad
    rw [List.cons_append]
    simp only [MainMod.genLogsTrace, h0, ih]
    simp

/-- When every fetch succeeds the clone loop succeeds. -/
theorem cloneAllTrace_ok (fetch : Github.Repo → Except String Unit) :
    ∀ repos : List Github.Repo, (∀ r ∈ repos, fetch r = .ok ()) →
    (MainMod.cloneAllTrace fetch repos).1 = .ok ()
  | [], _ => rfl
  | r :: rest, h => by
    have h0 : fetch r = .ok () := h r (by simp)
    simp only [MainMod.cloneAllTrace, h0]
    exact cloneAllTrace_ok fetch rest fun x hx => h x (by simp [hx])

/-- Claim C2 counterexample: with catalog `[repoFoo, repoBar]` and only
`repoFoo`'s fetch failing, the whole run aborts with the wrapped fetch
error — `repoBar` is never attempted (the clone trace is `[repoFoo]`) and no
merge output exists — contradicting the claim that the remaining repositories
proceed through log generation and the merge stage. -/
theorem C2_counterexample :
    MainMod.runPipeline mainEnvFail none false [repoFoo, repoBar] =
      .error (contextMsg ("failed to fetch repo " ++ repoFoo.fullName) "boom") ∧
    (MainMod.cloneAllTrace mainEnvFail.fetchRepo [repoFoo, repoBar]).2 = [repoFoo] ∧
    ∀ u : Unit, MainMod.runPipeline mainEnvFail none false [repoFoo, repoBar] ≠ .ok u := by
  refine ⟨rfl, rfl, ?_⟩
  intro u h
  rw [show MainMod.runPipeline mainEnvFail none false [repoFoo, repoBar] =
    .error (contextMsg ("failed to fetch repo " ++ repoFoo.fullName) "boom") from rfl] at h
  exact Except.noConfusion h

/-- Claim C2 (amended): with cloning enabled, a single repository's fetch
failure aborts the entire run: the pipeline returns the wrapped fetch error,
repositories after the failing one are never attempted, and the merge stage
never runs.  Likewise, when every fetch succeeds, a single repository's
log-generation failure aborts the run with the wrapped log error. -/
theorem C2_fail_fast (env : MainMod.MainEnv) (pre : List Github.Repo)
    (bad : Github.Repo) (rest : List Github.Repo) (e : String) :
    ((∀ r ∈ pre, env.fetchRepo r = .ok ()) → env.fetchRepo bad = .error e →
      MainMod.cloneAllTrace env.fetchRepo (pre ++ bad :: rest) =
        (.error (contextMsg ("failed to fetch repo " ++ bad.fullName) e),
          pre ++ [bad]) ∧
      MainMod.runPipeline env none false (pre ++ bad :: rest) =
        .error (contextMsg ("failed to fetch repo " ++ bad.fullName) e)) ∧
    ((∀ r ∈ pre ++ bad :: rest, env.fetchRepo r = .ok ()) →
      (∀ r ∈ pre, env.generateGourceLog r = .ok ()) →
      env.generateGourceLog bad = .error e →
      MainMod.genLogsTrace env.generateGourceLog (pre ++ bad :: rest) =
        (.error (contextMsg ("failed to generate gource log for " ++ bad.fullName) e),
          pre ++ [bad]) ∧
      MainMod.runPipeline env none false (pre ++ bad :: rest) =
        .error (contextMsg ("failed to generate gource log for " ++ bad.fullName) e)) := by
  constructor
  · intro hok hbad
    have htr := cloneAllTrace_error env.fetchRepo pre bad rest e hok hbad
    refine ⟨htr, ?_⟩
    simp [MainMod.runPipeline, Include.applyIncludes, htr]
  · intro hfetch hgok hgbad
    have htr := genLogsTrace_error env.generateGourceLog pre bad rest e hgok hgbad
    refine ⟨htr, ?_⟩
    have hclone := cloneAllTrace_ok env.fetchRepo (pre ++ bad :: rest) hfetch
    simp [MainMod.runPipeline, Include.applyIncludes, hclone, htr]

/-- Claim C2, instantiated: the fetch-failure branch at `mainEnvFail` with
`repoFoo` failing, and the log-failure branch at `mainEnvLogFail` with
`repoBar` failing after a successful fetch of both repositories. -/
theorem C2_fail_fast_witness :
    (MainMod.cloneAllTrace mainEnvFail.fetchRepo [repoFoo, repoBar] =
      (.error (contextMsg ("failed to fetch repo " ++ repoFoo.fullName) "boom"),
        [repoFoo]) ∧
      MainMod.runPipeline mainEnvFail none false [repoFoo, repoBar] =
        .error (contextMsg ("failed to fetch repo " ++ repoFoo.fullName) "boom")) ∧
    (MainMod.genLogsTrace mainEnvLogFail.generateGourceLog [repoFoo, repoBar] =
      (.error (contextMsg ("failed to generate gource log for " ++ repoBar.fullName)
        "nolog"), [repoFoo, repoBar]) ∧
      MainMod.runPipeline mainEnvLogFail none false [repoFoo, repoBar] =
        .error (contextMsg ("failed to generate gource log for " ++ repoBar.fullName)
          "nolog")) := by
  constructor
  · have h := (C2_fail_fast mainEnvFail [] repoFoo [repoBar] "boom").1
      (by intro r hr; simp at hr) rfl
    simpa using h
  · have h := (C2_fail_fast mainEnvLogFail [repoFoo] repoBar [] "nolog").2
      (by intro r hr; fin_cases hr <;> rfl)
      (by intro r hr; fin_cases hr; rfl) rfl
    simpa using h

end Gourcers
